import Mathlib

/-!
Verification development for the cloud-backup console utility.

The definitions below are a shallow embedding of `src/backup.py`
(`BackupManager`) and `src/storage/local_storage.py` (`LocalStorage`),
together with models of the Python standard-library routines they call
(`pathlib.PurePath.suffix`/`.name`, `str.split('/')`, `fnmatch.fnmatch`,
`zipfile.ZipFile.extract` name sanitization, `datetime.strftime`).
Paths are represented as strings or as lists of path components;
filesystem and storage effects are made explicit as state values and
operation traces.
-/

namespace CloudBackup

/-! ## Models of Python path primitives -/

/-- Model of Python `str.split('/')` (accumulator walks the characters;
an empty input yields one empty component, exactly as in Python). -/
def splitCompsAux : List Char → List Char → List String
  | [], acc => [String.mk acc.reverse]
  | c :: rest, acc =>
    if c = '/' then String.mk acc.reverse :: splitCompsAux rest []
    else splitCompsAux rest (c :: acc)

/-- Model of Python `s.split('/')`. -/
def splitComps (s : String) : List String := splitCompsAux s.data []

/-- Characters of the last path component, in reverse order: walk the
reversed character list until a `/` is hit.  This mirrors how
`pathlib.PurePath.name` takes everything after the last separator. -/
def lastCompRev : List Char → List Char
  | [] => []
  | c :: rest => if c = '/' then [] else c :: lastCompRev rest

/-- Model of `pathlib.PurePath.name` for a POSIX path string. -/
def fileName (s : String) : String :=
  String.mk (lastCompRev s.data.reverse).reverse

/-- Core of `pathlib.PurePath.suffix`: the input is the file name
reversed; the accumulator holds the characters already passed (in
original order).  `pathlib` returns `name[i:]` for the last dot index
`i` when `0 < i < len(name) - 1`, and the empty string otherwise:
the first dot met on the reversed name is that last dot, `acc` empty
means the dot is the final character, `rest` empty means it is the
first character of the name. -/
def rfindSuffix : List Char → List Char → Option (List Char)
  | [], _ => none
  | c :: rest, acc =>
    if c = '.' then
      if acc.isEmpty || rest.isEmpty then none else some ('.' :: acc)
    else rfindSuffix rest (c :: acc)

/-- Model of `pathlib.PurePath.suffix` for a POSIX path string. -/
def pathSuffix (s : String) : String :=
  match rfindSuffix (lastCompRev s.data.reverse) [] with
  | none => ""
  | some l => String.mk l

/-! ## Model of `fnmatch.fnmatch` (POSIX, case-sensitive)

The matcher supports `*` (any run of characters, separators included —
`fnmatch` is not path-aware), `?` (any single character) and literal
characters, which is every construct the repository's configuration,
tests and the claims exercise; `[...]` character classes are not
modelled.  The whole name must match (`fnmatch.translate` anchors the
pattern at both ends). -/

def globMatch (p : List Char) (s : List Char) : Bool :=
  match p with
  | [] => s.isEmpty
  | pc :: ps =>
    if pc = '*' then s.tails.any (fun t => globMatch ps t)
    else
      match s with
      | [] => false
      | c :: cs => (pc = '?' || pc = c) && globMatch ps cs

/-- Model of `fnmatch.fnmatch(name, pat)` on POSIX. -/
def fnmatch (name : String) (pat : String) : Bool :=
  globMatch pat.data name.data

/-! ## `BackupManager._should_exclude` and `_scan_files`

`_should_exclude` receives the `Path` object produced by
`source_path.rglob('*')` — that is, the source path joined with the
entry's relative path — and tests `fnmatch(str(file_path), pattern) or
fnmatch(file_path.name, pattern)` for each configured pattern. -/

def shouldExclude (filePath : String) (patterns : List String) : Bool :=
  patterns.any (fun pat => fnmatch filePath pat || fnmatch (fileName filePath) pat)

/-- One entry of the directory tree under the scanned source, given by
its root-relative components and whether it is a regular file. -/
structure FsEntry where
  rel : List String
  isFile : Bool
deriving DecidableEq

/-- String form of the `Path` object `root / rel` (POSIX join). -/
def joinPath (root : String) (rel : List String) : String :=
  root ++ "/" ++ String.intercalate "/" rel

/-- Model of `BackupManager._scan_files`: walk every entry below the
source, keep regular files, drop the ones `_should_exclude` matches. -/
def scanFiles (root : String) (tree : List FsEntry) (excl : List String) : List String :=
  (tree.filter (fun e => e.isFile && !shouldExclude (joinPath root e.rel) excl)).map
    (fun e => joinPath root e.rel)

/-! ## `BackupManager._extract_archive` and `zipfile` name sanitization

`_extract_archive` calls `zipfile.ZipFile.extract(member, target)` for
every member of the archive.  On POSIX, CPython's
`ZipFile._extract_member` sanitizes the member name by splitting it on
the separator and dropping every component that is empty, `.` or `..`,
then joins the rest below the target directory; it never raises on a
traversal attempt.  Extracted paths are represented as target-relative
component lists. -/

/-- Model of CPython `ZipFile._extract_member` name sanitization
(POSIX): the components of the member name with `''`, `.` and `..`
removed. -/
def sanitizeEntry (name : String) : List String :=
  (splitComps name).filter (fun c => !(c == "" || c == "." || c == ".."))

/-- State of the restore target directory: whether it exists and the
target-relative paths of the files inside it. -/
structure TargetState where
  targetExists : Bool
  targetEntries : List (List String)
deriving DecidableEq

/-- Model of `BackupManager._extract_archive`: creates the target
directory, extracts every member (one written path per member, in
archive order) and returns the list of extracted paths. -/
def extractArchive (entries : List String) (fs : TargetState) :
    List (List String) × TargetState :=
  let extracted := entries.map sanitizeEntry
  (extracted, { targetExists := true, targetEntries := fs.targetEntries ++ extracted })

/-- A member name escapes the target directory iff naively joining it
below the target and resolving `.` and `..` steps leaves the target at
some point (the depth counter goes negative). -/
def escapesAux : List String → Int → Bool
  | [], _ => false
  | c :: rest, d =>
    if c == "" || c == "." then escapesAux rest d
    else if c == ".." then decide (d - 1 < 0) || escapesAux rest (d - 1)
    else escapesAux rest (d + 1)

/-- Whether extracting a member of this name below the target would
place the file outside the target directory via `..` traversal. -/
def escapesTarget (name : String) : Bool :=
  escapesAux (splitComps name) 0

/-! ## `BackupManager.restore_backup`

The storage backend is modelled as a partial map from backup ids to the
stored payload (whether it is encrypted, and the member list of the
underlying zip archive).  Every concrete backend's `download` writes the
payload to the caller-supplied target file, which `restore_backup`
always names `f"{backup_id}.zip"` inside the temporary directory.  The
function returns the outcome, the trace of storage operations performed
and the resulting target-directory state. -/

structure StoredBackup where
  encrypted : Bool
  entries : List String
deriving DecidableEq

inductive RestoreError where
  | targetNotEmpty
  | notFound
  | encryptionNotConfigured
  | badArchive
deriving DecidableEq

inductive StorageOp where
  | download (id : String)
  | upload (id : String)
  | delete (id : String)
deriving DecidableEq

/-- Model of `BackupManager.restore_backup`.  `hasEncryptor` is whether
a cipher adapter is configured (`self.encryptor is not None`).  The
target-not-empty check precedes the download; the downloaded file is
named `backup_id ++ ".zip"`; the decryption branch triggers on
`archive_path.suffix == '.enc'`; handing an encrypted payload to
`zipfile` fails (`BadZipFile`), modelled as `badArchive`. -/
def restoreBackup (backend : String → Option StoredBackup) (hasEncryptor : Bool)
    (backupId : String) (fs : TargetState) (overwrite : Bool) :
    Except RestoreError (List (List String)) × List StorageOp × TargetState :=
  if fs.targetExists && !overwrite && !fs.targetEntries.isEmpty then
    (.error .targetNotEmpty, [], fs)
  else
    match backend backupId with
    | none => (.error .notFound, [.download backupId], fs)
    | some stored =>
      let localName := backupId ++ ".zip"
      if pathSuffix localName == ".enc" then
        if !hasEncryptor then
          (.error .encryptionNotConfigured, [.download backupId], fs)
        else
          let (files, fs') := extractArchive stored.entries fs
          (.ok files, [.download backupId], fs')
      else
        if stored.encrypted then
          (.error .badArchive, [.download backupId], fs)
        else
          let (files, fs') := extractArchive stored.entries fs
          (.ok files, [.download backupId], fs')

/-! ## `BackupManager._create_archive`

Files are represented by their `pathlib`-normalized components (the
`parts` of the `Path` object, the root marker aside): `pathlib` drops
empty and `.` components when parsing a path string.  `_create_archive`
writes each file under `file.relative_to(source_path)` and performs no
duplicate-entry detection — the archive is the list of entry names in
input order. -/

/-- Model of `pathlib.PurePosixPath` parsing: the components of the
string with empty and `.` components dropped. -/
def parsePath (s : String) : List String :=
  (splitComps s).filter (fun c => !(c == "" || c == "."))

/-- Entry name of a file in the archive: `file.relative_to(root)`,
valid when `root`'s components are a prefix of the file's. -/
def relEntryName (root : List String) (file : List String) : List String :=
  file.drop root.length

/-- Model of `BackupManager._create_archive`: the resulting archive's
member list, one entry per input file, in order. -/
def createArchive (root : List String) (files : List (List String)) : List (List String) :=
  files.map (relEntryName root)

/-! ## `BackupManager.cleanup_old_backups`

The record list is what `self.storage.list_backups()` returned; the
backend's `delete` is modelled by its outcome per id: it returns a
boolean or raises.  The function returns the result value of the Python
code (two shapes: the dry-run dictionary and the real-run dictionary)
and the trace of storage operations performed. -/

structure BackupRecord where
  id : String
  size : Nat
  created_at : String
deriving DecidableEq

structure RetentionConfig where
  keep_last : Option Nat
deriving DecidableEq

inductive DeleteOutcome where
  | returns (b : Bool)
  | raises
deriving DecidableEq

inductive CleanupResult where
  | dry (to_delete : List BackupRecord) (total_backups : Nat) (will_keep : Nat)
  | real (deleted_count : Nat) (freed_space : Nat) (to_delete : List BackupRecord)
deriving DecidableEq

/-- The `to_delete` entry of either result shape. -/
def CleanupResult.toDeleteList : CleanupResult → List BackupRecord
  | .dry td _ _ => td
  | .real _ _ td => td

/-- Python string comparison: lexicographic by Unicode code point. -/
def lexLe : List Char → List Char → Bool
  | [], _ => true
  | _ :: _, [] => false
  | a :: as, b :: bs => decide (a < b) || (a == b && lexLe as bs)

/-- Ordering of records by their `created_at` key, as Python's
`sort(key=...)` compares the key strings. -/
def recLE (a b : BackupRecord) : Prop :=
  lexLe a.created_at.data b.created_at.data = true

instance : DecidableRel recLE := fun _ _ => instDecidableEqBool _ _

instance : IsTotal BackupRecord recLE := by
  constructor
  intro a b
  unfold recLE
  generalize a.created_at.data = x
  generalize b.created_at.data = y
  induction x generalizing y with
  | nil => exact Or.inl rfl
  | cons c cs ih =>
    cases y with
    | nil => exact Or.inr rfl
    | cons d ds =>
      rcases lt_trichotomy c d with h | h | h
      · exact Or.inl (by simp [lexLe, h])
      · subst h
        rcases ih ds with h2 | h2 <;> simp [lexLe, h2]
      · exact Or.inr (by simp [lexLe, h])

instance : IsTrans BackupRecord recLE := by
  constructor
  intro a b c
  unfold recLE
  generalize a.created_at.data = x
  generalize b.created_at.data = y
  generalize c.created_at.data = z
  induction x generalizing y z with
  | nil => intro _ _; rfl
  | cons p ps ih =>
    intro h1 h2
    cases y with
    | nil => simp [lexLe] at h1
    | cons q qs =>
      cases z with
      | nil => simp [lexLe] at h2
      | cons r rs =>
        simp only [lexLe, Bool.or_eq_true, decide_eq_true_eq, Bool.and_eq_true,
          beq_iff_eq] at h1 h2 ⊢
        rcases h1 with h1 | ⟨rfl, h1⟩
        · rcases h2 with h2 | ⟨rfl, h2⟩
          · exact Or.inl (lt_trans h1 h2)
          · exact Or.inl h1
        · rcases h2 with h2 | ⟨rfl, h2⟩
          · exact Or.inl h2
          · exact Or.inr ⟨rfl, ih qs rs h1 h2⟩

/-- Python `list.sort(key=lambda x: x.get('created_at', ''))`: stable
ascending sort by the `created_at` field (modelled by insertion sort,
which is stable and ascending like Python's sort). -/
def sortRecords (records : List BackupRecord) : List BackupRecord :=
  List.insertionSort recLE records

/-- Python `l[:-k]` for a nonnegative `k`: note that `l[:-0]` is
`l[:0] = []`, not the whole list. -/
def pyNegSlice (l : List α) (k : Nat) : List α :=
  if k = 0 then [] else l.take (l.length - k)

/-- The `keep_last` value the code uses:
`config.get('retention', {}).get('keep_last', 30)`. -/
def effectiveKeepLast (retention : Option RetentionConfig) : Nat :=
  ((retention.getD ⟨none⟩).keep_last).getD 30

/-- The deletion-candidate computation of `cleanup_old_backups`:
`backups[:-to_keep] if len(backups) > to_keep else []` over the sorted
list (after the early return on an empty listing). -/
def cleanupCandidates (retention : Option RetentionConfig)
    (records : List BackupRecord) : List BackupRecord :=
  if records.isEmpty then []
  else
    let sorted := sortRecords records
    let to_keep := effectiveKeepLast retention
    if sorted.length > to_keep then pyNegSlice sorted to_keep else []

/-- The deletion loop of `cleanup_old_backups`: each candidate's
`delete` is called; a `True` return increments the count and adds the
record's size; a `False` return or a raised exception (caught and
logged) leaves the totals unchanged and the loop continues. -/
def runDeletes (del : String → DeleteOutcome) :
    List BackupRecord → Nat × Nat × List StorageOp
  | [] => (0, 0, [])
  | r :: rest =>
    let (c, f, ops) := runDeletes del rest
    match del r.id with
    | .returns true => (c + 1, f + r.size, .delete r.id :: ops)
    | .returns false => (c, f, .delete r.id :: ops)
    | .raises => (c, f, .delete r.id :: ops)

/-- Model of `BackupManager.cleanup_old_backups`. -/
def cleanupOldBackups (retention : Option RetentionConfig)
    (records : List BackupRecord) (del : String → DeleteOutcome)
    (dry_run : Bool) : CleanupResult × List StorageOp :=
  if records.isEmpty then (.real 0 0 [], [])
  else
    let cands := cleanupCandidates retention records
    if dry_run then
      (.dry cands records.length (records.length - cands.length), [])
    else
      let (c, f, ops) := runDeletes del cands
      (.real c f cands, ops)

/-- Effect of a traced storage operation on the record listing the
backend would return: `delete` removes the record of that id, `download`
reads only.  No operation traced in this development is an `upload`
(the theorems establish the relevant traces are delete-only or empty),
so `upload` is left as the identity here. -/
def applyOp (recs : List BackupRecord) : StorageOp → List BackupRecord
  | .delete i => recs.filter (fun r => !(r.id == i))
  | .download _ => recs
  | .upload _ => recs

/-- Effect of a whole operation trace on the backend's record listing. -/
def applyOps (recs : List BackupRecord) (ops : List StorageOp) : List BackupRecord :=
  ops.foldl applyOp recs

/-! ## `BackupManager._generate_backup_id`

The code formats `datetime.now()` — the local wall-clock time — with
`"%Y-%m-%d_%H-%M-%S"` and prepends `config['backup'].get('name',
'backup')`.  Wall-clock instants are modelled by their broken-down
fields; `localNow` relates a UTC instant to the wall clock of an
environment whose timezone is a whole number of hours ahead, restricted
to instants where adding the offset does not cross midnight. -/

structure LocalDateTime where
  year : Nat
  month : Nat
  day : Nat
  hour : Nat
  minute : Nat
  second : Nat
deriving DecidableEq

/-- Decimal digit as a character. -/
def digitChar48 (n : Nat) : Char := Char.ofNat (48 + n)

/-- Two-digit zero-padded decimal (values below 100). -/
def pad2chars (n : Nat) : List Char :=
  [digitChar48 (n / 10), digitChar48 (n % 10)]

/-- Four-digit zero-padded decimal (values below 10000). -/
def pad4chars (n : Nat) : List Char :=
  [digitChar48 (n / 1000), digitChar48 (n / 100 % 10),
   digitChar48 (n / 10 % 10), digitChar48 (n % 10)]

/-- Model of `strftime("%Y-%m-%d_%H-%M-%S")` on a broken-down time. -/
def strftimeId (t : LocalDateTime) : String :=
  String.mk (pad4chars t.year ++ ['-'] ++ pad2chars t.month ++ ['-'] ++
    pad2chars t.day ++ ['_'] ++ pad2chars t.hour ++ ['-'] ++
    pad2chars t.minute ++ ['-'] ++ pad2chars t.second)

/-- Model of `datetime.now()` in a timezone `off` whole hours ahead of
UTC, for instants where the shift stays within the same day. -/
def localNow (utc : LocalDateTime) (off : Nat) : LocalDateTime :=
  { utc with hour := utc.hour + off }

/-- Model of `BackupManager._generate_backup_id`, applied to the
wall-clock time `datetime.now()` returned. -/
def generateBackupId (cfgName : Option String) (now : LocalDateTime) : String :=
  (cfgName.getD "backup") ++ "_" ++ strftimeId now

/-! ## Auxiliary definitions used by the theorems -/

/-- Whether the backend's `delete` call on this record's id returned
`True` (as opposed to returning `False` or raising). -/
def deleteSucceeded (del : String → DeleteOutcome) (r : BackupRecord) : Bool :=
  del r.id == .returns true

/-- A backend holding one backup, `b1`, whose stored payload is the
encrypted archive `b1.zip.enc`. -/
def encBackend : String → Option StoredBackup :=
  fun i => if i == "b1" then some ⟨true, ["data.txt"]⟩ else none

/-! ## Basic lemmas -/

/-- The local file `restore_backup` downloads into is always named
`backupId ++ ".zip"`, and the `pathlib` suffix of such a name is never
`.enc`: the name ends in `zip`, so the text after its last dot is `zip`
(or there is no suffix at all when the name is just `.zip`). -/
theorem pathSuffix_append_zip (backupId : String) :
    pathSuffix (backupId ++ ".zip") ≠ ".enc" := by
  have hdata : (backupId ++ ".zip").data = backupId.data ++ ['.', 'z', 'i', 'p'] := rfl
  unfold pathSuffix
  rw [hdata, List.reverse_append]
  have hrev : (['.', 'z', 'i', 'p'] : List Char).reverse = ['p', 'i', 'z', '.'] := rfl
  rw [hrev]
  simp only [List.cons_append, List.nil_append]
  have hlast : lastCompRev ('p' :: 'i' :: 'z' :: '.' :: backupId.data.reverse)
      = 'p' :: 'i' :: 'z' :: '.' :: lastCompRev backupId.data.reverse := by
    simp [lastCompRev]
  rw [hlast]
  have hfind : rfindSuffix ('p' :: 'i' :: 'z' :: '.' :: lastCompRev backupId.data.reverse) []
      = if (lastCompRev backupId.data.reverse).isEmpty then none
        else some ['.', 'z', 'i', 'p'] := by
    simp [rfindSuffix]
  rw [hfind]
  cases h : (lastCompRev backupId.data.reverse).isEmpty <;> simp [h]

/-- Sorting does not change the number of records. -/
theorem sortRecords_length (records : List BackupRecord) :
    (sortRecords records).length = records.length :=
  (List.perm_insertionSort recLE records).length_eq

/-- For a keep value of at least 1 the candidate computation coincides
with the slice `records[0 : len - keep]` of the sorted listing (the
empty list when `len ≤ keep`). -/
theorem cleanupCandidates_eq_take (retention : Option RetentionConfig)
    (records : List BackupRecord) (h : 1 ≤ effectiveKeepLast retention) :
    cleanupCandidates retention records
      = (sortRecords records).take (records.length - effectiveKeepLast retention) := by
  unfold cleanupCandidates
  cases records with
  | nil => simp [sortRecords, List.insertionSort]
  | cons r rs =>
    simp only [List.isEmpty_cons, if_neg Bool.false_ne_true]
    have hlen := sortRecords_length (r :: rs)
    by_cases hk : (sortRecords (r :: rs)).length > effectiveKeepLast retention
    · rw [if_pos hk]
      unfold pyNegSlice
      rw [if_neg (by omega), hlen]
    · rw [if_neg hk]
      have h0 : (r :: rs).length - effectiveKeepLast retention = 0 := by omega
      rw [h0, List.take_zero]

/-- With `keep_last = 0` the code computes `backups[:-0]`, which in
Python is the empty slice: no record is ever selected. -/
theorem cleanupCandidates_keep_zero (records : List BackupRecord) :
    cleanupCandidates (some ⟨some 0⟩) records = [] := by
  unfold cleanupCandidates
  split
  · rfl
  · simp [effectiveKeepLast, pyNegSlice]

/-- Closed form of the deletion loop: every candidate is attempted (the
trace holds one `delete` per candidate, in order), the count is the
number of candidates whose `delete` returned `True`, and the freed
space is the sum of the sizes of exactly those records. -/
theorem runDeletes_spec (del : String → DeleteOutcome) :
    ∀ l : List BackupRecord,
      runDeletes del l =
        ((l.filter (deleteSucceeded del)).length,
         ((l.filter (deleteSucceeded del)).map BackupRecord.size).sum,
         l.map (fun r => StorageOp.delete r.id))
  | [] => rfl
  | r :: rest => by
    have ih := runDeletes_spec del rest
    unfold runDeletes
    rw [ih]
    rcases h : del r.id with b | _
    · cases b
      · simp [deleteSucceeded, List.filter_cons, h]
      · simp [deleteSucceeded, List.filter_cons, h, Nat.add_comm]
    · simp [deleteSucceeded, List.filter_cons, h]

/-- Entries the zip extraction routine writes contain no empty, `.` or
`..` component. -/
theorem sanitizeEntry_clean (name : String) :
    ∀ c ∈ sanitizeEntry name, c ≠ "" ∧ c ≠ "." ∧ c ≠ ".." := by
  intro c hc
  have := (List.mem_filter.mp hc).2
  simp only [Bool.not_eq_true', Bool.or_eq_false_iff, beq_eq_false_iff_ne] at this
  exact ⟨this.1.1, this.1.2, this.2⟩

/-- A component list free of empty, `.` and `..` components never drives
the resolution depth negative: it cannot escape the directory it is
resolved under. -/
theorem escapesAux_nonneg : ∀ (l : List String) (d : Int), 0 ≤ d →
    (∀ c ∈ l, c ≠ "" ∧ c ≠ "." ∧ c ≠ "..") → escapesAux l d = false
  | [], _, _, _ => rfl
  | c :: rest, d, hd, hl => by
    obtain ⟨h1, h2, h3⟩ := hl c (List.mem_cons_self c rest)
    unfold escapesAux
    rw [if_neg (by simp [h1, h2]), if_neg (by simp [h3])]
    exact escapesAux_nonneg rest (d + 1) (by omega)
      (fun x hx => hl x (List.mem_cons_of_mem c hx))

/-- Decimal digits below 10 map to distinct characters. -/
theorem digitChar48_inj_fin :
    ∀ a b : Fin 10, digitChar48 a = digitChar48 b → a = b := by decide

/-- Injectivity of the digit character map on values below 10. -/
theorem digitChar48_inj {a b : Nat} (ha : a < 10) (hb : b < 10)
    (h : digitChar48 a = digitChar48 b) : a = b := by
  have := digitChar48_inj_fin ⟨a, ha⟩ ⟨b, hb⟩ h
  simpa [Fin.ext_iff] using this

/-! ## Claim theorems -/

/-- Claim C1 (refuted; the code contradicts its own storage layer and
dead decryption branch): the claim says `restore_backup` decides
decryption from the downloaded payload suffix and raises the
encryption-not-configured error for an encrypted payload without an
adapter.  In the code the downloaded file is always named
`backup_id ++ ".zip"` whatever the stored payload was, so its
`pathlib` suffix is never `.enc` (first conjunct), the decryption
branch is unreachable and the error is never raised on any input
(third conjunct); restoring the encrypted backup `b1` without an
adapter instead hands the encrypted blob to `zipfile`, which fails as
a bad archive (second conjunct). -/
theorem c1_restore_never_detects_encryption :
    (∀ backupId : String, pathSuffix (backupId ++ ".zip") ≠ ".enc") ∧
    (restoreBackup encBackend false "b1" ⟨false, []⟩ false).1
      = .error .badArchive ∧
    ∀ (backend : String → Option StoredBackup) (hasEncryptor : Bool)
      (backupId : String) (fs : TargetState) (overwrite : Bool),
      (restoreBackup backend hasEncryptor backupId fs overwrite).1
        ≠ .error .encryptionNotConfigured := by
  refine ⟨pathSuffix_append_zip, rfl, ?_⟩
  intro backend hasEncryptor backupId fs overwrite
  unfold restoreBackup
  split
  · simp
  · cases hb : backend backupId with
    | none => simp [hb]
    | some stored =>
      simp only [hb]
      rw [if_neg]
      · split <;> simp
      · simp [pathSuffix_append_zip backupId]

/-- Claim C2 counterexample: with `keepLast = 0` and one record the
code selects no candidate, while the claimed slice
`records[0 : len - 0]` is the whole listing. -/
theorem c2_keep_zero_counterexample :
    cleanupCandidates (some ⟨some 0⟩) [⟨"b1", 5, "2024-01-01"⟩] = [] ∧
    (sortRecords [⟨"b1", 5, "2024-01-01"⟩]).take
      ([(⟨"b1", 5, "2024-01-01"⟩ : BackupRecord)].length - 0) = [⟨"b1", 5, "2024-01-01"⟩] :=
  ⟨rfl, rfl⟩

/-- Claim C2 (amended): `cleanup_old_backups` sorts the records
ascending by `created_at` (a permutation of the listing, sorted), and
for every `keepLast ≥ 1` selects exactly the slice
`records[0 : len - keepLast]` of the sorted listing, the empty list
when `len ≤ keepLast`.  With `keepLast = 0`, however, the candidate
set is empty (the Python slice `[:-0]`), not the whole listing. -/
theorem c2_cleanup_slice (records : List BackupRecord) (keep : Nat) (h : 1 ≤ keep) :
    List.Sorted recLE (sortRecords records) ∧
    (sortRecords records).Perm records ∧
    cleanupCandidates (some ⟨some keep⟩) records
      = (sortRecords records).take (records.length - keep) ∧
    cleanupCandidates (some ⟨some 0⟩) records = [] := by
  refine ⟨List.sorted_insertionSort recLE records, List.perm_insertionSort recLE records,
    ?_, cleanupCandidates_keep_zero records⟩
  exact cleanupCandidates_eq_take (some ⟨some keep⟩) records h

/-- Witness for claim C2 at two records and `keepLast = 1`. -/
theorem c2_cleanup_slice_witness :
    1 ≤ 1 ∧
    (List.Sorted recLE (sortRecords [⟨"b", 2, "2024-01-02"⟩, ⟨"a", 1, "2024-01-01"⟩]) ∧
     (sortRecords [⟨"b", 2, "2024-01-02"⟩, ⟨"a", 1, "2024-01-01"⟩]).Perm
        [⟨"b", 2, "2024-01-02"⟩, ⟨"a", 1, "2024-01-01"⟩] ∧
     cleanupCandidates (some ⟨some 1⟩) [⟨"b", 2, "2024-01-02"⟩, ⟨"a", 1, "2024-01-01"⟩]
       = (sortRecords [⟨"b", 2, "2024-01-02"⟩, ⟨"a", 1, "2024-01-01"⟩]).take
           ([(⟨"b", 2, "2024-01-02"⟩ : BackupRecord), ⟨"a", 1, "2024-01-01"⟩].length - 1) ∧
     cleanupCandidates (some ⟨some 0⟩) [⟨"b", 2, "2024-01-02"⟩, ⟨"a", 1, "2024-01-01"⟩] = []) :=
  ⟨Nat.le_refl 1, c2_cleanup_slice [⟨"b", 2, "2024-01-02"⟩, ⟨"a", 1, "2024-01-01"⟩] 1 (Nat.le_refl 1)⟩

/-- Claim C3 counterexample: the member name `../evil.txt` escapes the
target by `..` traversal, yet extraction does not reject it — it
returns normally and writes a file derived from that entry (the
sanitized `evil.txt`, inside the target), so the entry is neither
rejected with an error nor left unwritten. -/
theorem c3_traversal_entry_extracted :
    escapesTarget "../evil.txt" = true ∧
    extractArchive ["../evil.txt"] ⟨true, []⟩
      = ([["evil.txt"]], ⟨true, [["evil.txt"]]⟩) :=
  ⟨by decide, rfl⟩

/-- Claim C3 (amended): extraction never rejects an entry — every
member yields exactly one written path, appended to the target
contents — but the zip routine sanitizes each member name (dropping
empty, `.` and `..` components), so every written path is a proper
relative path below the target: it has no `..` component and its
resolution never leaves the target directory.  No file is ever written
outside the target; no `PathTraversalError` exists in the code. -/
theorem c3_extraction_sanitized (entries : List String) (fs : TargetState) :
    (extractArchive entries fs).1.length = entries.length ∧
    (extractArchive entries fs).2.targetEntries
      = fs.targetEntries ++ (extractArchive entries fs).1 ∧
    ∀ p ∈ (extractArchive entries fs).1,
      ".." ∉ p ∧ "" ∉ p ∧ escapesAux p 0 = false := by
  refine ⟨by simp [extractArchive], rfl, ?_⟩
  intro p hp
  simp only [extractArchive, List.mem_map] at hp
  obtain ⟨name, _, rfl⟩ := hp
  have hcl := sanitizeEntry_clean name
  refine ⟨fun hmem => (hcl _ hmem).2.2 rfl, fun hmem => (hcl _ hmem).1 rfl, ?_⟩
  exact escapesAux_nonneg _ 0 le_rfl hcl

/-- Witness for claim C3 on the traversal archive: the written path
`evil.txt` is produced, and it has no `..`, no empty component, and
does not escape. -/
theorem c3_extraction_sanitized_witness :
    ["evil.txt"] ∈ (extractArchive ["../evil.txt"] ⟨false, []⟩).1 ∧
    (".." ∉ (["evil.txt"] : List String) ∧ "" ∉ (["evil.txt"] : List String) ∧
      escapesAux ["evil.txt"] 0 = false) :=
  ⟨by decide,
    (c3_extraction_sanitized ["../evil.txt"] ⟨false, []⟩).2.2 ["evil.txt"] (by decide)⟩

/-- Claim C4 counterexample: the two distinct input strings
`/r//./a.txt` and `/r/a.txt` normalize to the same path and hence the
same entry name, yet archive construction returns an archive holding
the entry `a.txt` twice — it does not fail. -/
theorem c4_duplicate_counterexample :
    parsePath "/r//./a.txt" = parsePath "/r/a.txt" ∧
    "/r//./a.txt" ≠ "/r/a.txt" ∧
    createArchive (parsePath "/r") [parsePath "/r//./a.txt", parsePath "/r/a.txt"]
      = [["a.txt"], ["a.txt"]] ∧
    ¬ (createArchive (parsePath "/r")
        [parsePath "/r//./a.txt", parsePath "/r/a.txt"]).Nodup := by
  refine ⟨by decide, by decide, by decide, by decide⟩

/-- Claim C4 (amended): `_create_archive` performs no duplicate-entry
detection and raises no `ArchiveError`: when two positions of the input
list normalize to the same entry name, the archive is still produced
with one entry per input (so the duplicated name appears twice and the
member list is not duplicate-free). -/
theorem c4_duplicates_not_rejected (root : List String) (files : List (List String))
    (i j : Nat) (hi : i < files.length) (hj : j < files.length) (hij : i ≠ j)
    (hdup : relEntryName root (files.get ⟨i, hi⟩)
      = relEntryName root (files.get ⟨j, hj⟩)) :
    (createArchive root files).length = files.length ∧
    ¬ (createArchive root files).Nodup := by
  constructor
  · simp [createArchive]
  · intro hnd
    have hinj := List.nodup_iff_injective_get.mp hnd
    have hlen : (createArchive root files).length = files.length := by
      simp [createArchive]
    have hget : ∀ (k : Nat) (hk : k < files.length),
        (createArchive root files).get ⟨k, by omega⟩
          = relEntryName root (files.get ⟨k, hk⟩) := by
      intro k hk
      simp [createArchive]
    have heq : (createArchive root files).get ⟨i, by omega⟩
        = (createArchive root files).get ⟨j, by omega⟩ := by
      rw [hget i hi, hget j hj, hdup]
    have := hinj heq
    simp only [Fin.mk.injEq] at this
    exact hij this

/-- Witness for claim C4 on a two-element duplicate input. -/
theorem c4_duplicates_not_rejected_witness :
    (0 : Nat) ≠ 1 ∧
    relEntryName ["r"] ([["r", "a.txt"], ["r", "a.txt"]].get ⟨0, by decide⟩)
      = relEntryName ["r"] ([["r", "a.txt"], ["r", "a.txt"]].get ⟨1, by decide⟩) ∧
    (createArchive ["r"] [["r", "a.txt"], ["r", "a.txt"]]).length
      = [["r", "a.txt"], ["r", "a.txt"]].length ∧
    ¬ (createArchive ["r"] [["r", "a.txt"], ["r", "a.txt"]]).Nodup :=
  ⟨by decide, by decide,
    c4_duplicates_not_rejected ["r"] [["r", "a.txt"], ["r", "a.txt"]] 0 1
      (by decide) (by decide) (by decide) (by decide)⟩

/-- Claim C5 (refuted; the code contradicts the repository's own test
`test_should_exclude`): exclusion matches each pattern against the full
path string of the scanned file and against its bare name — never
against the root-relative path.  The file `/path/to/temp/file.txt`,
whose root-relative path `temp/file.txt` matches the configured pattern
`temp/*` (so the claim requires it excluded, and the repository's test
asserts it excluded), is not excluded and appears in the scan result;
conversely a pattern written against the absolute path, `/data/*`, does
exclude `/data/a.txt` although neither its relative form nor its
basename matches. -/
theorem c5_exclusion_matches_full_path :
    shouldExclude "/path/to/temp/file.txt" ["*.log", "temp/*", "backup_*.tmp"] = false ∧
    fnmatch "temp/file.txt" "temp/*" = true ∧
    fnmatch "file.txt" "temp/*" = false ∧
    scanFiles "/path/to" [⟨["temp", "file.txt"], true⟩] ["temp/*"]
      = ["/path/to/temp/file.txt"] ∧
    shouldExclude "/data/a.txt" ["/data/*"] = true ∧
    fnmatch "a.txt" "/data/*" = false := by
  refine ⟨by decide, by decide, by decide, by decide, by decide, by decide⟩

/-- Claim C6: during a real (non-dry-run) cleanup every candidate is
attempted (the trace is one `delete` per candidate, in order, whatever
each outcome is — a raised delete does not abort the batch), the
returned deleted count is the number of candidates whose delete
returned `True`, and the freed space is the sum of the sizes of
exactly those records, not of all attempted ones. -/
theorem c6_batch_failure_isolation (retention : Option RetentionConfig)
    (records : List BackupRecord) (del : String → DeleteOutcome) :
    (cleanupOldBackups retention records del false).2
      = (cleanupCandidates retention records).map (fun r => StorageOp.delete r.id) ∧
    (cleanupOldBackups retention records del false).1
      = .real (((cleanupCandidates retention records).filter (deleteSucceeded del)).length)
          ((((cleanupCandidates retention records).filter (deleteSucceeded del)).map
              BackupRecord.size).sum)
          (cleanupCandidates retention records) := by
  unfold cleanupOldBackups
  cases records with
  | nil => exact ⟨rfl, rfl⟩
  | cons r rs =>
    simp only [List.isEmpty_cons, if_neg Bool.false_ne_true, Bool.false_eq_true, if_false]
    rw [runDeletes_spec del]
    exact ⟨rfl, rfl⟩

/-- Claim C7: a dry-run cleanup performs no storage operation at all
(its trace is empty, so in particular no delete and no upload), the
backend record listing is unchanged by that trace, and a second
dry-run on the resulting backend returns the identical `to_delete`
set. -/
theorem c7_dry_run_no_mutation (retention : Option RetentionConfig)
    (records : List BackupRecord) (del : String → DeleteOutcome) :
    (cleanupOldBackups retention records del true).2 = [] ∧
    applyOps records (cleanupOldBackups retention records del true).2 = records ∧
    (cleanupOldBackups retention
        (applyOps records (cleanupOldBackups retention records del true).2) del
        true).1.toDeleteList
      = (cleanupOldBackups retention records del true).1.toDeleteList := by
  have hops : (cleanupOldBackups retention records del true).2 = [] := by
    unfold cleanupOldBackups
    split <;> rfl
  exact ⟨hops, by rw [hops]; rfl, by rw [hops]; rfl⟩

/-- Claim C8: when the target directory exists, is non-empty and
`overwrite` is false, `restore_backup` fails with the target-not-empty
error before any storage operation (the trace is empty, so no download
is attempted) and returns the target state unchanged. -/
theorem c8_target_not_empty_first (backend : String → Option StoredBackup)
    (hasEncryptor : Bool) (backupId : String) (fs : TargetState) (overwrite : Bool)
    (h1 : fs.targetExists = true) (h2 : overwrite = false)
    (h3 : fs.targetEntries ≠ []) :
    restoreBackup backend hasEncryptor backupId fs overwrite
      = (.error .targetNotEmpty, [], fs) := by
  unfold restoreBackup
  rw [if_pos]
  simp [h1, h2, h3]

/-- Witness for claim C8 on a populated target. -/
theorem c8_witness :
    (⟨true, [["x.txt"]]⟩ : TargetState).targetExists = true ∧
    (⟨true, [["x.txt"]]⟩ : TargetState).targetEntries ≠ [] ∧
    restoreBackup (fun _ => none) false "b1" ⟨true, [["x.txt"]]⟩ false
      = (.error .targetNotEmpty, [], ⟨true, [["x.txt"]]⟩) :=
  ⟨rfl, by simp, c8_target_not_empty_first (fun _ => none) false "b1" ⟨true, [["x.txt"]]⟩
      false rfl rfl (by simp)⟩

/-- Claim C9 counterexample: at the UTC instant 2024-01-01 09:00:00 in
a timezone three hours ahead, the generated id carries the local time
12:00:00, not the UTC time — and two environments at the same UTC
instant with different offsets generate different ids, so the id is
not determined by the configured name and the UTC instant. -/
theorem c9_local_not_utc :
    generateBackupId none (localNow ⟨2024, 1, 1, 9, 0, 0⟩ 3)
      ≠ "backup" ++ "_" ++ strftimeId ⟨2024, 1, 1, 9, 0, 0⟩ ∧
    generateBackupId none (localNow ⟨2024, 1, 1, 9, 0, 0⟩ 3)
      ≠ generateBackupId none (localNow ⟨2024, 1, 1, 9, 0, 0⟩ 0) := by
  refine ⟨by decide, by decide⟩

/-- Claim C9 (amended): every generated backup id has the form
`<configured-name>_<timestamp>` where the timestamp is the local
wall-clock creation time (what `datetime.now()` returns), formatted at
second precision as the 19-character `%Y-%m-%d_%H-%M-%S`; for a fixed
configured name the id is determined by — and determines — the local
wall-clock datetime fields, not the UTC instant. -/
theorem c9_id_from_local_time (cfgName : Option String) (t t2 : LocalDateTime)
    (hy : t.year < 10000) (hmo : t.month < 100) (hd : t.day < 100)
    (hh : t.hour < 100) (hmi : t.minute < 100) (hs : t.second < 100)
    (hy2 : t2.year < 10000) (hmo2 : t2.month < 100) (hd2 : t2.day < 100)
    (hh2 : t2.hour < 100) (hmi2 : t2.minute < 100) (hs2 : t2.second < 100)
    (heq : strftimeId t = strftimeId t2) :
    generateBackupId cfgName t = (cfgName.getD "backup") ++ "_" ++ strftimeId t ∧
    (strftimeId t).length = 19 ∧
    t = t2 := by
  refine ⟨rfl, by simp [strftimeId, pad4chars, pad2chars], ?_⟩
  have hl : pad4chars t.year ++ ['-'] ++ pad2chars t.month ++ ['-'] ++
      pad2chars t.day ++ ['_'] ++ pad2chars t.hour ++ ['-'] ++
      pad2chars t.minute ++ ['-'] ++ pad2chars t.second
      = pad4chars t2.year ++ ['-'] ++ pad2chars t2.month ++ ['-'] ++
      pad2chars t2.day ++ ['_'] ++ pad2chars t2.hour ++ ['-'] ++
      pad2chars t2.minute ++ ['-'] ++ pad2chars t2.second :=
    congrArg String.data heq
  simp only [pad4chars, pad2chars, List.cons_append, List.nil_append,
    List.cons.injEq, eq_self_iff_true, true_and, and_true] at hl
  obtain ⟨e1, e2, e3, e4, e5, e6, e7, e8, e9, e10, e11, e12, e13, e14⟩ := hl
  have hyear : t.year = t2.year := by
    have d1 := digitChar48_inj (by omega) (by omega) e1
    have d2 := digitChar48_inj (by omega) (by omega) e2
    have d3 := digitChar48_inj (by omega) (by omega) e3
    have d4 := digitChar48_inj (by omega) (by omega) e4
    omega
  have hmonth : t.month = t2.month := by
    have d1 := digitChar48_inj (by omega) (by omega) e5
    have d2 := digitChar48_inj (by omega) (by omega) e6
    omega
  have hday : t.day = t2.day := by
    have d1 := digitChar48_inj (by omega) (by omega) e7
    have d2 := digitChar48_inj (by omega) (by omega) e8
    omega
  have hhour : t.hour = t2.hour := by
    have d1 := digitChar48_inj (by omega) (by omega) e9
    have d2 := digitChar48_inj (by omega) (by omega) e10
    omega
  have hminute : t.minute = t2.minute := by
    have d1 := digitChar48_inj (by omega) (by omega) e11
    have d2 := digitChar48_inj (by omega) (by omega) e12
    omega
  have hsecond : t.second = t2.second := by
    have d1 := digitChar48_inj (by omega) (by omega) e13
    have d2 := digitChar48_inj (by omega) (by omega) e14
    omega
  cases t; cases t2
  simp only [LocalDateTime.mk.injEq]
  exact ⟨hyear, hmonth, hday, hhour, hminute, hsecond⟩

/-- Witness for claim C9 at a concrete local instant. -/
theorem c9_id_from_local_time_witness :
    (2024 : Nat) < 10000 ∧ (12 : Nat) < 100 ∧
    strftimeId ⟨2024, 1, 1, 12, 30, 5⟩ = strftimeId ⟨2024, 1, 1, 12, 30, 5⟩ ∧
    (generateBackupId (some "mybak") ⟨2024, 1, 1, 12, 30, 5⟩
        = ((some "mybak").getD "backup") ++ "_" ++ strftimeId ⟨2024, 1, 1, 12, 30, 5⟩ ∧
      (strftimeId ⟨2024, 1, 1, 12, 30, 5⟩).length = 19 ∧
      (⟨2024, 1, 1, 12, 30, 5⟩ : LocalDateTime) = ⟨2024, 1, 1, 12, 30, 5⟩) :=
  ⟨by decide, by decide, rfl,
    c9_id_from_local_time (some "mybak") ⟨2024, 1, 1, 12, 30, 5⟩ ⟨2024, 1, 1, 12, 30, 5⟩
      (by decide) (by decide) (by decide) (by decide) (by decide) (by decide)
      (by decide) (by decide) (by decide) (by decide) (by decide) (by decide) rfl⟩

/-- Claim C10: when the configuration has no retention section, or a
retention section without `keep_last`, cleanup behaves exactly as with
`keep_last = 30` — dry or real, any backend — and its candidate set is
the slice of the sorted listing older than the 30 most recent records
(in particular empty, deleting nothing, when at most 30 records
exist). -/
theorem c10_default_keep_last (retention : Option RetentionConfig)
    (records : List BackupRecord) (del : String → DeleteOutcome) (dryRun : Bool)
    (h : retention = none ∨ retention = some ⟨none⟩) :
    effectiveKeepLast retention = 30 ∧
    cleanupOldBackups retention records del dryRun
      = cleanupOldBackups (some ⟨some 30⟩) records del dryRun ∧
    cleanupCandidates retention records
      = (sortRecords records).take (records.length - 30) := by
  have he : effectiveKeepLast retention = 30 := by
    rcases h with rfl | rfl <;> rfl
  refine ⟨he, ?_, ?_⟩
  · rcases h with rfl | rfl <;> rfl
  · have hc := cleanupCandidates_eq_take retention records (by omega)
    rwa [he] at hc

/-- Witness for claim C10 with an absent retention section. -/
theorem c10_witness :
    ((none : Option RetentionConfig) = none ∨
      (none : Option RetentionConfig) = some ⟨none⟩) ∧
    (effectiveKeepLast none = 30 ∧
     cleanupOldBackups none [⟨"a", 1, "1"⟩] (fun _ => .raises) true
       = cleanupOldBackups (some ⟨some 30⟩) [⟨"a", 1, "1"⟩] (fun _ => .raises) true ∧
     cleanupCandidates none [⟨"a", 1, "1"⟩]
       = (sortRecords [⟨"a", 1, "1"⟩]).take ([(⟨"a", 1, "1"⟩ : BackupRecord)].length - 30)) :=
  ⟨Or.inl rfl, c10_default_keep_last none [⟨"a", 1, "1"⟩] (fun _ => .raises) true (Or.inl rfl)⟩

end CloudBackup
